import Mathlib

/-
Verification of the directory-to-blob-storage mirroring tool (main.py).

The tool walks a local directory tree and, for each file, uploads it to a
remote blob container under a destination key unless the remote object's
stored content-MD5 already equals the MD5 of the local bytes; with the
sync flag it afterwards deletes every remote object under the destination
whose key was not produced during the upload walk.

The shallow embedding below models:
  - the path computations of main.py lines 42 and 49 (lstrip, relpath, join);
  - the MIME table with the two overrides of lines 22-23 and the
    content-type fallback of lines 70-72;
  - the remote container as an association list from keys to blob
    properties, with the metadata contract of the spec (content bytes,
    content-type, optional content MD5);
  - the MD5 digest function of hashlib as an abstract parameter, together
    with the spec-level fact Digest16 that every digest has 16 bytes;
  - failures of the remote calls (a non-not-found failure of
    get_blob_properties, a failure of upload_blob, a failure of
    delete_blob) as an injected fault environment, so that the try/except
    structure of lines 62-66, 75-83 and 91-95 can be stated;
  - the upload loop (lines 45-83), the reconciliation loop (lines 85-95)
    and the whole run.
-/

set_option maxHeartbeats 1000000

namespace CopyToBlob

/-- Byte strings are modelled as lists of byte values. -/
abbrev Bytes := List Nat

/-- Remote object identifiers (blob names). -/
abbrev Key := String

def slashStr : String := "/"

def emptyStr : String := ""

def dotStr : String := "."

def pardir : String := ".."

def curdir : String := "."

/-- Split of a character list at every occurrence of a separator, the semantics of
Python str.split with a one-character separator. -/
def chSplitAux (sep : Char) : List Char → List Char → List (List Char)
  | [], acc => [acc.reverse]
  | c :: cs, acc =>
    if c = sep then acc.reverse :: chSplitAux sep cs []
    else chSplitAux sep cs (c :: acc)

def chSplit (sep : Char) (l : List Char) : List (List Char) := chSplitAux sep l []

/-- Does the second string begin the first one. -/
def strStartsWith (s pre : String) : Bool := pre.data.isPrefixOf s.data

/-- Does the second string end the first one. -/
def strEndsWith (s suf : String) : Bool := suf.data.isSuffixOf s.data

/-- Lowercased copy of a string. -/
def strLower (s : String) : String := String.mk (s.data.map Char.toLower)

/-- Segments of a string between slashes. -/
def slashSplit (s : String) : List String := (chSplit '/' s.data).map String.mk

/-- Join of segments with slashes in between, the inverse of the split above. -/
def joinSlash : List String → String
  | [] => emptyStr
  | [x] => x
  | x :: xs => x ++ slashStr ++ joinSlash xs

/-- Embeds `args.DEST.lstrip("/")` (main.py line 42): drop every leading slash. -/
def lstripSlash (s : String) : String := String.mk (s.data.dropWhile (fun c => c = '/'))

/-- Path split into its nonempty segments, as posixpath does for normalized paths. -/
def pathSegs (s : String) : List String := (slashSplit s).filter (fun x => x ≠ emptyStr)

/-- Length of the longest common leading run of two segment lists (posixpath.commonprefix). -/
def commonPrefixLen : List String → List String → Nat
  | a :: as, b :: bs => if a = b then commonPrefixLen as bs + 1 else 0
  | _, _ => 0

/-- Segment-level core of posixpath.relpath: go up for every base segment past the
common part, then down the remaining target segments. -/
def relpathSegs (p s : List String) : List String :=
  List.replicate (s.length - commonPrefixLen s p) pardir ++ p.drop (commonPrefixLen s p)

/-- Embeds posixpath.relpath restricted to normalized inputs, the case produced by
os.walk over SOURCE in main.py line 49. -/
def relpath (p s : String) : String :=
  let r := relpathSegs (pathSegs p) (pathSegs s)
  if r = [] then curdir else joinSlash r

/-- Embeds posixpath.join for two components, as used in main.py line 49. -/
def pjoin (a b : String) : String :=
  if strStartsWith b slashStr then b
  else if a = emptyStr ∨ strEndsWith a slashStr = true then a ++ b
  else a ++ slashStr ++ b

/-- Embeds main.py line 49: the destination key of a local file, where `dest` is the
already-stripped destination of line 42. -/
def destKey (src dest path : String) : String := pjoin dest (relpath path src)

def octetStream : String := "application/octet-stream"

def mapExt : String := ".map"

def ttfExt : String := ".ttf"

/-- First value bound to a key in an extension table. -/
def tableLookup (t : List (String × String)) (k : String) : Option String :=
  (t.find? (fun e => e.1 = k)).map (fun e => e.2)

/-- Embeds a dictionary update `t[k] = v` on an extension table. -/
def tableSet (t : List (String × String)) (k v : String) : List (String × String) :=
  if t.any (fun e => e.1 = k) then t.map (fun e => if e.1 = k then (k, v) else e)
  else t ++ [(k, v)]

/-- Modelled from the spec: MIME-type guessing is "treated as an external lookup table
from file extension to content-type string" (the Python mimetypes default table, which
is not part of this repository); seeded here with the standard entries the spec's
examples rely on, among them `.html` to `text/html` and `.ttf` to a font type. -/
def baseTypesMap : List (String × String) :=
  [(".html", "text/html"), (".htm", "text/html"), (".txt", "text/plain"),
   (".js", "text/javascript"), (".css", "text/css"), (".json", "application/json"),
   (".ttf", "font/ttf"), (".png", "image/png"), (".svg", "image/svg+xml"),
   (".xml", "text/xml"), (".pdf", "application/pdf")]

/-- Embeds main.py lines 22-23: the `.map` and `.ttf` entries of the table are
overridden to `application/octet-stream`. -/
def typesMap : List (String × String) :=
  tableSet (tableSet baseTypesMap mapExt octetStream) ttfExt octetStream

/-- Final path component. -/
def basenameOf (p : String) : String := (slashSplit p).getLastD emptyStr

/-- Characters after the last dot of a list, if any dot occurs. -/
def extAux : List Char → Option (List Char)
  | [] => none
  | c :: cs =>
    if c = '.' then
      match extAux cs with
      | some e => some e
      | none => some cs
    else extAux cs

/-- Embeds the extension part of posixpath.splitext: the suffix of the basename from
its last dot, where the leading dots of the basename never start an extension. -/
def splitextExt (p : String) : String :=
  let stripped := (basenameOf p).data.dropWhile (fun c => c = '.')
  match extAux stripped with
  | some e => dotStr ++ String.mk e
  | none => emptyStr

/-- Embeds mimetypes.guess_type on the table with overrides: look the extension up
as written, then lowercased; no entry means no guess. -/
def guessType (p : String) : Option String :=
  let ext := splitextExt p
  match tableLookup typesMap ext with
  | some t => some t
  | none => tableLookup typesMap (strLower ext)

/-- Embeds main.py lines 70-72: the guessed content type, with the falsy values None
and the empty string replaced by `application/octet-stream`. -/
def resolveContentType (p : String) : String :=
  match guessType p with
  | some t => if t = emptyStr then octetStream else t
  | none => octetStream

/-- Stored properties of one remote object: content bytes, content-type, and the
optional content MD5 (None when the store never recorded one). -/
structure BlobProps where
  data : Bytes
  contentType : String
  contentMD5 : Option Bytes
deriving Repr, DecidableEq

/-- The remote container, an association list from keys to blob properties. -/
abbrev Store := List (Key × BlobProps)

/-- Properties of the object stored under a key, if it exists. -/
def lookupStore : Store → Key → Option BlobProps
  | [], _ => none
  | e :: s, k => if k = e.1 then some e.2 else lookupStore s k

/-- Every entry for a key removed; embeds delete_blob on the container. -/
def removeKey : Store → Key → Store
  | [], _ => []
  | e :: s, k => if e.1 = k then removeKey s k else e :: removeKey s k

/-- Modelled from the spec: upload_blob with overwrite (main.py line 78) replaces the
object under the key, and per the spec's remote-metadata contract the store records
the content bytes, the content-type of the content settings, and the content MD5 of
the uploaded bytes, "set at upload time and read back on subsequent runs". -/
def storeUpsert (s : Store) (k : Key) (p : BlobProps) : Store := (k, p) :: removeKey s k

/-- Embeds main.py lines 62-66: the remote fingerprint seen for a key; a missing
object raises ResourceNotFoundError and yields the empty byte string, an existing
object yields its stored content MD5 (None when unset). -/
def fetchedMD5 (s : Store) (k : Key) : Option Bytes :=
  match lookupStore s k with
  | none => some []
  | some p => p.contentMD5

/-- One local file of the walked tree: its path and its full contents
(main.py lines 48 and 58). -/
structure LocalFile where
  path : String
  data : Bytes
deriving Repr, DecidableEq

/-- The ambient effects of one run: the external MD5 digest function of hashlib, and
the injected failures of the three remote calls — a non-not-found failure of
get_blob_properties, a failure of upload_blob, and a failure of delete_blob, each
given by the key it strikes and the error text it carries. -/
structure Env where
  fp : Bytes → Bytes
  fetchErr : Key → Option String
  uploadErr : Key → Option String
  deleteErr : Key → Option String

/-- Spec-level fact about hashlib.md5: every digest has exactly 16 bytes. -/
def Digest16 (f : Bytes → Bytes) : Prop := ∀ b, (f b).length = 16

/-- No injected get_blob_properties failure. -/
def FetchOk (env : Env) : Prop := ∀ k, env.fetchErr k = none

/-- No injected upload_blob failure. -/
def UploadOk (env : Env) : Prop := ∀ k, env.uploadErr k = none

/-- No injected delete_blob failure. -/
def DeleteOk (env : Env) : Prop := ∀ k, env.deleteErr k = none

/-- The printed outcome of one item: done, skipped, or failed with error text
(main.py lines 79, 81, 83, 93, 95). -/
inductive Outcome where
  | done
  | skipped
  | failed (msg : String)
deriving Repr, DecidableEq

/-- The report for one traversed file: its source path, its destination key, whether
upload_blob was called, and the printed outcome. -/
structure LogEntry where
  path : String
  key : Key
  uploadCalled : Bool
  outcome : Outcome
deriving Repr, DecidableEq

/-- The in-process state of the run: the remote container and the keep-set
`files_to_keep` of main.py line 41. -/
structure SyncState where
  store : Store
  keep : List Key
deriving Repr, DecidableEq

/-- Embeds `files_to_keep.add` (main.py line 50): set insertion. -/
def insertKey (k : Key) (l : List Key) : List Key := if k ∈ l then l else l ++ [k]

/-- Embeds main.py lines 48-83 for one file: compute the destination key, add it to
the keep-set, fetch the remote fingerprint (a non-not-found failure escapes as an
uncaught error), and upload exactly when the local MD5 differs from it, with an
upload failure caught and reported. -/
def processFile (env : Env) (src dest : String) (st : SyncState) (f : LocalFile) :
    SyncState × Except String LogEntry :=
  match env.fetchErr (destKey src dest f.path) with
  | some msg => (⟨st.store, insertKey (destKey src dest f.path) st.keep⟩, Except.error msg)
  | none =>
    if some (env.fp f.data) = fetchedMD5 st.store (destKey src dest f.path) then
      (⟨st.store, insertKey (destKey src dest f.path) st.keep⟩,
        Except.ok ⟨f.path, destKey src dest f.path, false, Outcome.skipped⟩)
    else
      match env.uploadErr (destKey src dest f.path) with
      | some msg =>
        (⟨st.store, insertKey (destKey src dest f.path) st.keep⟩,
          Except.ok ⟨f.path, destKey src dest f.path, true, Outcome.failed msg⟩)
      | none =>
        (⟨storeUpsert st.store (destKey src dest f.path)
            ⟨f.data, resolveContentType f.path, some (env.fp f.data)⟩,
          insertKey (destKey src dest f.path) st.keep⟩,
          Except.ok ⟨f.path, destKey src dest f.path, true, Outcome.done⟩)

/-- Embeds the walk of main.py lines 45-83: process the files in order; an uncaught
error aborts the remaining traversal and is returned as the third component. -/
def uploadPhase (env : Env) (src dest : String) :
    SyncState → List LocalFile → SyncState × List LogEntry × Option String
  | st, [] => (st, [], none)
  | st, f :: fs =>
    match processFile env src dest st f with
    | (st', Except.error msg) => (st', [], some msg)
    | (st', Except.ok e) =>
      match uploadPhase env src dest st' fs with
      | (st2, log, ab) => (st2, e :: log, ab)

/-- Embeds `client.list_blobs(name_starts_with=dest)` (main.py line 87): the keys of
the container that start with the destination, in container order. -/
def listTargets (st : Store) (dest : String) : List Key :=
  (st.map Prod.fst).filter (fun k => strStartsWith k dest)

/-- Embeds main.py lines 87-95: for every listed key absent from the keep-set, delete
the object, with a delete failure caught and reported. -/
def reconcileLoop (env : Env) (keep : List Key) : Store → List Key → Store × List (Key × Outcome)
  | st, [] => (st, [])
  | st, k :: ks =>
    if k ∈ keep then reconcileLoop env keep st ks
    else
      match env.deleteErr k with
      | some msg =>
        match reconcileLoop env keep st ks with
        | (st2, log) => (st2, (k, Outcome.failed msg) :: log)
      | none =>
        match reconcileLoop env keep (removeKey st k) ks with
        | (st2, log) => (st2, (k, Outcome.done) :: log)

/-- Everything observable about one run: the final container, the keep-set, the
per-file upload report, the per-key delete report, and the uncaught error if the
run aborted. -/
structure SyncResult where
  store : Store
  keep : List Key
  uploadLog : List LogEntry
  deleteLog : List (Key × Outcome)
  abortErr : Option String
deriving Repr, DecidableEq

/-- Embeds the module body of main.py lines 40-95: strip the destination, run the
upload phase, and when the sync flag is set and no uncaught error occurred, run the
reconciliation phase over the listed keys. -/
def runSync (env : Env) (src DEST : String) (sync : Bool) (files : List LocalFile)
    (store0 : Store) : SyncResult :=
  let dest := lstripSlash DEST
  match uploadPhase env src dest ⟨store0, []⟩ files with
  | (st, ulog, some msg) => ⟨st.store, st.keep, ulog, [], some msg⟩
  | (st, ulog, none) =>
    if sync then
      match reconcileLoop env st.keep st.store (listTargets st.store dest) with
      | (store2, dlog) => ⟨store2, st.keep, ulog, dlog, none⟩
    else ⟨st.store, st.keep, ulog, [], none⟩

/-- A concrete stand-in digest function for evaluating the model on examples: always
16 bytes, with the last byte a simple checksum of the input. -/
def fpDemo : Bytes → Bytes :=
  fun b => List.replicate 15 0 ++ [b.foldl (fun a x => (a + x) % 256) 7 % 256]

/-- A fault-free environment over the stand-in digest. -/
def envDemo : Env := ⟨fpDemo, fun _ => none, fun _ => none, fun _ => none⟩

def srcA : String := "/a"

def destSite : String := "/site"

def fileSub : String := "/a/sub/x.txt"

def fileMapName : String := "app.js.map"

def fileTtfName : String := "font.ttf"

def fileHtmlName : String := "index.html"

def fileXyzName : String := "data.xyz123"

def fileQqqName : String := "notes.qqq"

def keyStale : String := "site/stale"

def fileA : LocalFile := ⟨"/a/a", [1]⟩

def fileB : LocalFile := ⟨"/a/b", [2]⟩

def fileC : LocalFile := ⟨"/a/c", [3]⟩

def fileD : LocalFile := ⟨"/a/d", [4]⟩

def fileE : LocalFile := ⟨"/a/e", [5]⟩

def filesTwo : List LocalFile := [fileA, fileB]

def filesFive : List LocalFile := [fileA, fileB, fileC, fileD, fileE]

/-- A container holding the two live example objects and one stale one, the live two
already carrying the fingerprints of the local contents. -/
def storeSite : Store :=
  [("site/a", ⟨[1], octetStream, some (fpDemo [1])⟩),
   ("site/b", ⟨[2], octetStream, some (fpDemo [2])⟩),
   ("site/stale", ⟨[9], octetStream, some (fpDemo [9])⟩)]

def msgBoom : String := "boom"

def msgBadFetch : String := "badfetch"

/-- An environment whose upload_blob fails for the key of the third example file. -/
def envFailC : Env :=
  ⟨fpDemo, fun _ => none, fun k => if k = "site/c" then some msgBoom else none, fun _ => none⟩

/-- An environment whose get_blob_properties fails (not with not-found) for the key of
the second example file. -/
def envFetchFailB : Env :=
  ⟨fpDemo, fun k => if k = "site/b" then some msgBadFetch else none, fun _ => none,
    fun _ => none⟩

/-- An object stored without any content MD5. -/
def propsNoMD5 : BlobProps := ⟨[1], octetStream, none⟩

def storeNoMD5 : Store := [("site/a", propsNoMD5)]

def keySiteA : Key := "site/a"

/-- The keep-set the upload phase produces over the two example files. -/
def keepTwoKeys : List Key := ["site/a", "site/b"]

/-- The report of the upload phase over the two example files when both are skipped. -/
def skipLogTwo : List LogEntry :=
  [⟨"/a/a", "site/a", false, Outcome.skipped⟩,
   ⟨"/a/b", "site/b", false, Outcome.skipped⟩]

theorem digest16_fpDemo : Digest16 fpDemo := by
  intro b
  simp [fpDemo]

theorem lookupStore_removeKey_self (s : Store) (k : Key) :
    lookupStore (removeKey s k) k = none := by
  induction s with
  | nil => rfl
  | cons e s ih =>
    by_cases he : e.1 = k
    · simpa [removeKey, he] using ih
    · have hk : k ≠ e.1 := fun h => he h.symm
      simpa [removeKey, lookupStore, he, hk] using ih

theorem lookupStore_removeKey_ne (s : Store) (k q : Key) (hq : q ≠ k) :
    lookupStore (removeKey s k) q = lookupStore s q := by
  induction s with
  | nil => rfl
  | cons e s ih =>
    by_cases he : e.1 = k
    · simpa [removeKey, lookupStore, he, hq] using ih
    · by_cases hqe : q = e.1
      · simp [removeKey, lookupStore, he, hqe]
      · simpa [removeKey, lookupStore, he, hqe] using ih

theorem lookupStore_upsert_self (s : Store) (k : Key) (p : BlobProps) :
    lookupStore (storeUpsert s k p) k = some p := by
  simp [storeUpsert, lookupStore]

theorem lookupStore_upsert_ne (s : Store) (k : Key) (p : BlobProps) (q : Key) (hq : q ≠ k) :
    lookupStore (storeUpsert s k p) q = lookupStore s q := by
  simp [storeUpsert, lookupStore, hq, lookupStore_removeKey_ne s k q hq]

theorem lookupStore_eq_none_of_not_mem (s : Store) (q : Key) (hq : q ∉ s.map Prod.fst) :
    lookupStore s q = none := by
  induction s with
  | nil => rfl
  | cons e s ih =>
    simp only [List.map_cons, List.mem_cons] at hq
    push_neg at hq
    simp [lookupStore, hq.1, ih hq.2]

theorem mem_insertKey (a k : Key) (l : List Key) : a ∈ insertKey k l ↔ a = k ∨ a ∈ l := by
  by_cases h : k ∈ l
  · simp only [insertKey, if_pos h]
    constructor
    · exact Or.inr
    · rintro (rfl | ha)
      · exact h
      · exact ha
  · simp [insertKey, if_neg h, or_comm]

theorem insertKey_of_mem (k : Key) (l : List Key) (h : k ∈ l) : insertKey k l = l := by
  simp [insertKey, h]

theorem length_insertKey_of_not_mem (k : Key) (l : List Key) (h : k ∉ l) :
    (insertKey k l).length = l.length + 1 := by
  simp [insertKey, h]

theorem subset_insertKey (k : Key) (l : List Key) : l ⊆ insertKey k l := by
  intro a ha
  exact (mem_insertKey a k l).2 (Or.inr ha)

theorem processFile_abort (env : Env) (src dest : String) (st : SyncState) (f : LocalFile)
    (msg : String) (hf : env.fetchErr (destKey src dest f.path) = some msg) :
    processFile env src dest st f =
      (⟨st.store, insertKey (destKey src dest f.path) st.keep⟩, Except.error msg) := by
  simp [processFile, hf]

theorem processFile_skip (env : Env) (src dest : String) (st : SyncState) (f : LocalFile)
    (hf : env.fetchErr (destKey src dest f.path) = none)
    (he : fetchedMD5 st.store (destKey src dest f.path) = some (env.fp f.data)) :
    processFile env src dest st f =
      (⟨st.store, insertKey (destKey src dest f.path) st.keep⟩,
        Except.ok ⟨f.path, destKey src dest f.path, false, Outcome.skipped⟩) := by
  simp [processFile, hf, he]

theorem processFile_upload_fail (env : Env) (src dest : String) (st : SyncState) (f : LocalFile)
    (msg : String) (hf : env.fetchErr (destKey src dest f.path) = none)
    (hne : fetchedMD5 st.store (destKey src dest f.path) ≠ some (env.fp f.data))
    (hu : env.uploadErr (destKey src dest f.path) = some msg) :
    processFile env src dest st f =
      (⟨st.store, insertKey (destKey src dest f.path) st.keep⟩,
        Except.ok ⟨f.path, destKey src dest f.path, true, Outcome.failed msg⟩) := by
  simp [processFile, hf, hu, Ne.symm hne]

theorem processFile_upload_done (env : Env) (src dest : String) (st : SyncState) (f : LocalFile)
    (hf : env.fetchErr (destKey src dest f.path) = none)
    (hne : fetchedMD5 st.store (destKey src dest f.path) ≠ some (env.fp f.data))
    (hu : env.uploadErr (destKey src dest f.path) = none) :
    processFile env src dest st f =
      (⟨storeUpsert st.store (destKey src dest f.path)
          ⟨f.data, resolveContentType f.path, some (env.fp f.data)⟩,
        insertKey (destKey src dest f.path) st.keep⟩,
        Except.ok ⟨f.path, destKey src dest f.path, true, Outcome.done⟩) := by
  simp [processFile, hf, hu, Ne.symm hne]

theorem processFile_keep (env : Env) (src dest : String) (st : SyncState) (f : LocalFile) :
    ((processFile env src dest st f).1).keep = insertKey (destKey src dest f.path) st.keep := by
  rcases hE : env.fetchErr (destKey src dest f.path) with _ | msg
  · by_cases hmd : fetchedMD5 st.store (destKey src dest f.path) = some (env.fp f.data)
    · rw [processFile_skip env src dest st f hE hmd]
    · rcases hU : env.uploadErr (destKey src dest f.path) with _ | msg
      · rw [processFile_upload_done env src dest st f hE hmd hU]
      · rw [processFile_upload_fail env src dest st f msg hE hmd hU]
  · rw [processFile_abort env src dest st f msg hE]

theorem processFile_store_ne (env : Env) (src dest : String) (st : SyncState) (f : LocalFile)
    (q : Key) (hq : q ≠ destKey src dest f.path) :
    lookupStore ((processFile env src dest st f).1).store q = lookupStore st.store q := by
  rcases hE : env.fetchErr (destKey src dest f.path) with _ | msg
  · by_cases hmd : fetchedMD5 st.store (destKey src dest f.path) = some (env.fp f.data)
    · rw [processFile_skip env src dest st f hE hmd]
    · rcases hU : env.uploadErr (destKey src dest f.path) with _ | msg
      · rw [processFile_upload_done env src dest st f hE hmd hU]
        exact lookupStore_upsert_ne st.store (destKey src dest f.path) _ q hq
      · rw [processFile_upload_fail env src dest st f msg hE hmd hU]
  · rw [processFile_abort env src dest st f msg hE]

theorem uploadPhase_cons_ok (env : Env) (src dest : String) (st : SyncState) (f : LocalFile)
    (fs : List LocalFile) (st' : SyncState) (e : LogEntry)
    (hp : processFile env src dest st f = (st', Except.ok e)) :
    uploadPhase env src dest st (f :: fs) =
      ((uploadPhase env src dest st' fs).1,
        e :: (uploadPhase env src dest st' fs).2.1,
        (uploadPhase env src dest st' fs).2.2) := by
  rcases h2 : uploadPhase env src dest st' fs with ⟨st2, log, ab⟩
  simp [uploadPhase, hp, h2]

theorem uploadPhase_cons_error (env : Env) (src dest : String) (st : SyncState) (f : LocalFile)
    (fs : List LocalFile) (st' : SyncState) (msg : String)
    (hp : processFile env src dest st f = (st', Except.error msg)) :
    uploadPhase env src dest st (f :: fs) = (st', [], some msg) := by
  simp [uploadPhase, hp]

theorem processFile_error_fetch (env : Env) (src dest : String) (st : SyncState) (f : LocalFile)
    (msg : String) (h : (processFile env src dest st f).2 = Except.error msg) :
    env.fetchErr (destKey src dest f.path) = some msg := by
  rcases hE : env.fetchErr (destKey src dest f.path) with _ | m
  · exfalso
    by_cases hmd : fetchedMD5 st.store (destKey src dest f.path) = some (env.fp f.data)
    · rw [processFile_skip env src dest st f hE hmd] at h
      simp at h
    · rcases hU : env.uploadErr (destKey src dest f.path) with _ | m2
      · rw [processFile_upload_done env src dest st f hE hmd hU] at h
        simp at h
      · rw [processFile_upload_fail env src dest st f m2 hE hmd hU] at h
        simp at h
  · rw [processFile_abort env src dest st f m hE] at h
    simp only [Except.error.injEq] at h
    rw [h]

theorem processFile_ok_cases (env : Env) (src dest : String) (st : SyncState) (f : LocalFile)
    (e : LogEntry) (h : (processFile env src dest st f).2 = Except.ok e) :
    e.path = f.path ∧ e.key = destKey src dest f.path ∧
      (e.uploadCalled = true ↔ fetchedMD5 st.store (destKey src dest f.path) ≠ some (env.fp f.data)) ∧
      (e.uploadCalled = false → e.outcome = Outcome.skipped) ∧
      (∀ msg, e.uploadCalled = true → env.uploadErr (destKey src dest f.path) = some msg →
        e.outcome = Outcome.failed msg) := by
  rcases hE : env.fetchErr (destKey src dest f.path) with _ | m
  · by_cases hmd : fetchedMD5 st.store (destKey src dest f.path) = some (env.fp f.data)
    · rw [processFile_skip env src dest st f hE hmd] at h
      simp only [Except.ok.injEq] at h
      subst h
      refine ⟨rfl, rfl, iff_of_false Bool.false_ne_true (not_not_intro hmd), fun _ => rfl, ?_⟩
      intro msg hc
      simp at hc
    · rcases hU : env.uploadErr (destKey src dest f.path) with _ | m2
      · rw [processFile_upload_done env src dest st f hE hmd hU] at h
        simp only [Except.ok.injEq] at h
        subst h
        refine ⟨rfl, rfl, iff_of_true rfl hmd, ?_, ?_⟩
        · intro hc
          simp at hc
        · intro msg _ hmsg
          simp at hmsg
      · rw [processFile_upload_fail env src dest st f m2 hE hmd hU] at h
        simp only [Except.ok.injEq] at h
        subst h
        refine ⟨rfl, rfl, iff_of_true rfl hmd, ?_, ?_⟩
        · intro hc
          simp at hc
        · intro msg _ hmsg
          simp only [Option.some.injEq] at hmsg
          rw [hmsg]
  · rw [processFile_abort env src dest st f m hE] at h
    exact Except.noConfusion h

theorem fetchedMD5_eq_some (s : Store) (k : Key) (val : Bytes) (h : fetchedMD5 s k = some val)
    (hne : val ≠ []) :
    ∃ p, lookupStore s k = some p ∧ p.contentMD5 = some val := by
  rcases hl : lookupStore s k with _ | p
  · exfalso
    apply hne
    have h2 : fetchedMD5 s k = some [] := by simp [fetchedMD5, hl]
    rw [h2] at h
    exact (Option.some.inj h).symm
  · refine ⟨p, rfl, ?_⟩
    have h2 : fetchedMD5 s k = p.contentMD5 := by simp [fetchedMD5, hl]
    rw [h2] at h
    exact h

theorem fetchedMD5_of_lookup (s : Store) (k : Key) (p : BlobProps)
    (h : lookupStore s k = some p) : fetchedMD5 s k = p.contentMD5 := by
  simp [fetchedMD5, h]

theorem uploadPhase_store_ne (env : Env) (src dest : String) :
    ∀ (fs : List LocalFile) (st : SyncState) (q : Key),
      (∀ f ∈ fs, q ≠ destKey src dest f.path) →
      lookupStore ((uploadPhase env src dest st fs).1).store q = lookupStore st.store q := by
  intro fs
  induction fs with
  | nil =>
    intro st q _
    rfl
  | cons f fs ih =>
    intro st q hq
    rcases hp : processFile env src dest st f with ⟨st', r⟩
    have hst' : lookupStore st'.store q = lookupStore st.store q := by
      have h2 := processFile_store_ne env src dest st f q (hq f (List.mem_cons_self f fs))
      rwa [hp] at h2
    cases r with
    | error msg =>
      rw [uploadPhase_cons_error env src dest st f fs st' msg hp]
      exact hst'
    | ok e =>
      have h3 := ih st' q (fun g hg => hq g (List.mem_cons_of_mem f hg))
      simp [uploadPhase_cons_ok env src dest st f fs st' e hp, h3, hst']

theorem uploadPhase_keep_eq (env : Env) (src dest : String) (hfe : FetchOk env) :
    ∀ (fs : List LocalFile) (st : SyncState),
      ((uploadPhase env src dest st fs).1).keep =
        fs.foldl (fun K f => insertKey (destKey src dest f.path) K) st.keep := by
  intro fs
  induction fs with
  | nil =>
    intro st
    rfl
  | cons f fs ih =>
    intro st
    rcases hp : processFile env src dest st f with ⟨st', r⟩
    have hkeep : st'.keep = insertKey (destKey src dest f.path) st.keep := by
      have h2 := processFile_keep env src dest st f
      rwa [hp] at h2
    cases r with
    | error msg =>
      exfalso
      have h2 : (processFile env src dest st f).2 = Except.error msg := by rw [hp]
      have h3 := processFile_error_fetch env src dest st f msg h2
      rw [hfe (destKey src dest f.path)] at h3
      simp at h3
    | ok e =>
      simp only [uploadPhase_cons_ok env src dest st f fs st' e hp, List.foldl_cons]
      rw [ih st', hkeep]

theorem mem_keepFoldl (src dest : String) :
    ∀ (files : List LocalFile) (K0 : List Key) (a : Key),
      a ∈ files.foldl (fun K f => insertKey (destKey src dest f.path) K) K0 ↔
        a ∈ K0 ∨ a ∈ files.map (fun f => destKey src dest f.path) := by
  intro files
  induction files with
  | nil =>
    intro K0 a
    simp
  | cons g files ih =>
    intro K0 a
    rw [List.foldl_cons, ih (insertKey (destKey src dest g.path) K0) a,
      mem_insertKey a (destKey src dest g.path) K0, List.map_cons, List.mem_cons]
    tauto

theorem length_keepFoldl (src dest : String) :
    ∀ (files : List LocalFile) (K0 : List Key),
      (files.map (fun f => destKey src dest f.path)).Nodup →
      (∀ f ∈ files, destKey src dest f.path ∉ K0) →
      (files.foldl (fun K f => insertKey (destKey src dest f.path) K) K0).length =
        K0.length + files.length := by
  intro files
  induction files with
  | nil =>
    intro K0 _ _
    rfl
  | cons g files ih =>
    intro K0 hnod hdisj
    rw [List.map_cons, List.nodup_cons] at hnod
    rw [List.foldl_cons]
    have hk0 : destKey src dest g.path ∉ K0 := hdisj g (List.mem_cons_self g files)
    have hdisj2 : ∀ f ∈ files, destKey src dest f.path ∉ insertKey (destKey src dest g.path) K0 := by
      intro f hf hmem
      rcases (mem_insertKey (destKey src dest f.path) (destKey src dest g.path) K0).1 hmem
        with heq | h2
      · apply hnod.1
        rw [← heq]
        simp only [List.mem_map]
        exact ⟨f, hf, rfl⟩
      · exact hdisj f (List.mem_cons_of_mem g hf) h2
    rw [ih (insertKey (destKey src dest g.path) K0) hnod.2 hdisj2,
      length_insertKey_of_not_mem (destKey src dest g.path) K0 hk0, List.length_cons]
    omega

theorem uploadPhase_md5_synced (env : Env) (src dest : String) (hfe : FetchOk env)
    (hu : UploadOk env) (hd : Digest16 env.fp) :
    ∀ (fs : List LocalFile) (st : SyncState),
      (fs.map (fun f => destKey src dest f.path)).Nodup →
      ∀ f ∈ fs, ∃ p,
        lookupStore ((uploadPhase env src dest st fs).1).store (destKey src dest f.path) = some p ∧
          p.contentMD5 = some (env.fp f.data) := by
  intro fs
  induction fs with
  | nil =>
    intro st _ f hf
    cases hf
  | cons g fs ih =>
    intro st hnod f hf
    rw [List.map_cons, List.nodup_cons] at hnod
    have hE := hfe (destKey src dest g.path)
    have hmain : ∃ st' e, processFile env src dest st g = (st', Except.ok e) ∧
        ∃ p, lookupStore st'.store (destKey src dest g.path) = some p ∧
          p.contentMD5 = some (env.fp g.data) := by
      by_cases hmd : fetchedMD5 st.store (destKey src dest g.path) = some (env.fp g.data)
      · refine ⟨_, _, processFile_skip env src dest st g hE hmd, ?_⟩
        have hne : env.fp g.data ≠ [] := by
          intro hn
          have hl := hd g.data
          rw [hn] at hl
          simp at hl
        exact fetchedMD5_eq_some st.store (destKey src dest g.path) _ hmd hne
      · refine ⟨_, _, processFile_upload_done env src dest st g hE hmd (hu _), ?_⟩
        exact ⟨_, lookupStore_upsert_self st.store (destKey src dest g.path) _, rfl⟩
    obtain ⟨st', e, hp, p, hpl, hpm⟩ := hmain
    have hfinal : (uploadPhase env src dest st (g :: fs)).1 = (uploadPhase env src dest st' fs).1 := by
      rw [uploadPhase_cons_ok env src dest st g fs st' e hp]
    rw [hfinal]
    rcases List.mem_cons.1 hf with rfl | hftail
    · refine ⟨p, ?_, hpm⟩
      have hq : ∀ x ∈ fs, destKey src dest f.path ≠ destKey src dest x.path := by
        intro x hx heq
        apply hnod.1
        rw [heq]
        exact List.mem_map.2 ⟨x, hx, rfl⟩
      rw [uploadPhase_store_ne env src dest fs st' (destKey src dest f.path) hq]
      exact hpl
    · exact ih st' hnod.2 f hftail

theorem uploadPhase_all_skip (env : Env) (src dest : String) (hfe : FetchOk env) :
    ∀ (fs : List LocalFile) (st : SyncState),
      (∀ f ∈ fs, ∃ p, lookupStore st.store (destKey src dest f.path) = some p ∧
          p.contentMD5 = some (env.fp f.data)) →
      uploadPhase env src dest st fs =
        (⟨st.store, fs.foldl (fun K f => insertKey (destKey src dest f.path) K) st.keep⟩,
          fs.map (fun f => ⟨f.path, destKey src dest f.path, false, Outcome.skipped⟩), none) := by
  intro fs
  induction fs with
  | nil =>
    intro st _
    rfl
  | cons g fs ih =>
    intro st hinv
    obtain ⟨p, hpl, hpm⟩ := hinv g (List.mem_cons_self g fs)
    have hmd : fetchedMD5 st.store (destKey src dest g.path) = some (env.fp g.data) := by
      rw [fetchedMD5_of_lookup st.store _ p hpl, hpm]
    have hstep := processFile_skip env src dest st g (hfe _) hmd
    have hrec := ih ⟨st.store, insertKey (destKey src dest g.path) st.keep⟩
      (fun x hx => hinv x (List.mem_cons_of_mem g hx))
    rw [uploadPhase_cons_ok env src dest st g fs _ _ hstep, hrec]
    simp

theorem uploadPhase_log (env : Env) (src dest : String) (hfe : FetchOk env) :
    ∀ (fs : List LocalFile) (st : SyncState),
      ((uploadPhase env src dest st fs).2.1).map LogEntry.path = fs.map LocalFile.path ∧
        (uploadPhase env src dest st fs).2.2 = none := by
  intro fs
  induction fs with
  | nil =>
    intro st
    exact ⟨rfl, rfl⟩
  | cons g fs ih =>
    intro st
    rcases hp : processFile env src dest st g with ⟨st', r⟩
    cases r with
    | error msg =>
      exfalso
      have h2 : (processFile env src dest st g).2 = Except.error msg := by rw [hp]
      have h3 := processFile_error_fetch env src dest st g msg h2
      rw [hfe _] at h3
      exact Option.noConfusion h3
    | ok e =>
      have hpath : e.path = g.path :=
        (processFile_ok_cases env src dest st g e (by rw [hp])).1
      have h4 := uploadPhase_cons_ok env src dest st g fs st' e hp
      constructor
      · rw [h4]
        have h5 : (e :: (uploadPhase env src dest st' fs).2.1).map LogEntry.path =
            e.path :: ((uploadPhase env src dest st' fs).2.1).map LogEntry.path :=
          List.map_cons LogEntry.path e ((uploadPhase env src dest st' fs).2.1)
        rw [h5, hpath, (ih st').1, List.map_cons]
      · rw [h4]
        exact (ih st').2

theorem uploadPhase_log_mem (env : Env) (src dest : String) :
    ∀ (fs : List LocalFile) (st : SyncState) (e : LogEntry),
      e ∈ (uploadPhase env src dest st fs).2.1 →
      ∃ (f : LocalFile) (st0 : SyncState), f ∈ fs ∧
        (processFile env src dest st0 f).2 = Except.ok e := by
  intro fs
  induction fs with
  | nil =>
    intro st e he
    cases he
  | cons g fs ih =>
    intro st e he
    rcases hp : processFile env src dest st g with ⟨st', r⟩
    cases r with
    | error msg =>
      rw [uploadPhase_cons_error env src dest st g fs st' msg hp] at he
      cases he
    | ok e2 =>
      rw [uploadPhase_cons_ok env src dest st g fs st' e2 hp] at he
      have he2 : e ∈ e2 :: (uploadPhase env src dest st' fs).2.1 := he
      rcases List.mem_cons.1 he2 with rfl | he3
      · exact ⟨g, st, List.mem_cons_self g fs, by rw [hp]⟩
      · obtain ⟨f, st0, hf, hok⟩ := ih st' e he3
        exact ⟨f, st0, List.mem_cons_of_mem g hf, hok⟩

theorem reconcileLoop_lookup (env : Env) (keep : List Key) (hdel : DeleteOk env) :
    ∀ (ks : List Key) (st : Store) (q : Key),
      lookupStore (reconcileLoop env keep st ks).1 q =
        if q ∈ ks ∧ q ∉ keep then none else lookupStore st q := by
  intro ks
  induction ks with
  | nil =>
    intro st q
    simp [reconcileLoop]
  | cons k ks ih =>
    intro st q
    by_cases hk : k ∈ keep
    · have hstep : reconcileLoop env keep st (k :: ks) = reconcileLoop env keep st ks := by
        simp [reconcileLoop, hk]
      rw [hstep, ih st q]
      by_cases hq : q = k
      · subst hq
        simp [hk]
      · simp [List.mem_cons, hq]
    · have hstep : (reconcileLoop env keep st (k :: ks)).1 =
          (reconcileLoop env keep (removeKey st k) ks).1 := by
        rcases h2 : reconcileLoop env keep (removeKey st k) ks with ⟨st2, log⟩
        simp [reconcileLoop, hk, hdel k, h2]
      rw [hstep, ih (removeKey st k) q]
      by_cases hq : q = k
      · subst hq
        by_cases hqks : q ∈ ks ∧ q ∉ keep
        · rw [if_pos hqks,
            if_pos (show q ∈ q :: ks ∧ q ∉ keep from ⟨List.mem_cons_self q ks, hk⟩)]
        · rw [if_neg hqks,
            if_pos (show q ∈ q :: ks ∧ q ∉ keep from ⟨List.mem_cons_self q ks, hk⟩)]
          exact lookupStore_removeKey_self st q
      · rw [lookupStore_removeKey_ne st k q hq]
        simp [List.mem_cons, hq]

theorem reconcileLoop_log (env : Env) (keep : List Key) :
    ∀ (ks : List Key) (st : Store),
      ((reconcileLoop env keep st ks).2).map Prod.fst =
        ks.filter (fun k => decide (k ∉ keep)) := by
  intro ks
  induction ks with
  | nil =>
    intro st
    rfl
  | cons k ks ih =>
    intro st
    by_cases hk : k ∈ keep
    · have hstep : reconcileLoop env keep st (k :: ks) = reconcileLoop env keep st ks := by
        simp [reconcileLoop, hk]
      rw [hstep, ih st, List.filter_cons]
      simp [hk]
    · rcases hD : env.deleteErr k with _ | msg
      · have hstep : (reconcileLoop env keep st (k :: ks)).2 =
            (k, Outcome.done) :: (reconcileLoop env keep (removeKey st k) ks).2 := by
          rcases h2 : reconcileLoop env keep (removeKey st k) ks with ⟨st2, log⟩
          simp [reconcileLoop, hk, hD, h2]
        rw [hstep, List.map_cons, ih (removeKey st k), List.filter_cons]
        simp [hk]
      · have hstep : (reconcileLoop env keep st (k :: ks)).2 =
            (k, Outcome.failed msg) :: (reconcileLoop env keep st ks).2 := by
          rcases h2 : reconcileLoop env keep st ks with ⟨st2, log⟩
          simp [reconcileLoop, hk, hD, h2]
        rw [hstep, List.map_cons, ih st, List.filter_cons]
        simp [hk]

theorem runSync_no_abort (env : Env) (src DEST : String) (sync : Bool)
    (files : List LocalFile) (store0 : Store) (st : SyncState) (ulog : List LogEntry)
    (hU : uploadPhase env src (lstripSlash DEST) ⟨store0, []⟩ files = (st, ulog, none)) :
    runSync env src DEST sync files store0 =
      if sync then
        ⟨(reconcileLoop env st.keep st.store (listTargets st.store (lstripSlash DEST))).1,
          st.keep, ulog,
          (reconcileLoop env st.keep st.store (listTargets st.store (lstripSlash DEST))).2, none⟩
      else ⟨st.store, st.keep, ulog, [], none⟩ := by
  cases sync
  · simp [runSync, hU]
  · rcases h2 : reconcileLoop env st.keep st.store (listTargets st.store (lstripSlash DEST))
      with ⟨s2, dl⟩
    simp [runSync, hU, h2]

theorem runSync_abort (env : Env) (src DEST : String) (sync : Bool) (files : List LocalFile)
    (store0 : Store) (st : SyncState) (ulog : List LogEntry) (msg : String)
    (hU : uploadPhase env src (lstripSlash DEST) ⟨store0, []⟩ files = (st, ulog, some msg)) :
    runSync env src DEST sync files store0 = ⟨st.store, st.keep, ulog, [], some msg⟩ := by
  simp [runSync, hU]

theorem commonPrefixLen_append (s r : List String) : commonPrefixLen s (s ++ r) = s.length := by
  induction s with
  | nil =>
    cases r <;> rfl
  | cons a as ih =>
    simp [commonPrefixLen, ih]

theorem relpathSegs_append (s r : List String) : relpathSegs (s ++ r) s = r := by
  simp [relpathSegs, commonPrefixLen_append s r]

theorem uploadPhase_abort_at (env : Env) (src dest : String) :
    ∀ (pre : List LocalFile) (st : SyncState) (f : LocalFile) (post : List LocalFile)
      (msg : String),
      (∀ g ∈ pre, env.fetchErr (destKey src dest g.path) = none) →
      env.fetchErr (destKey src dest f.path) = some msg →
      (uploadPhase env src dest st (pre ++ f :: post)).2.2 = some msg ∧
        ((uploadPhase env src dest st (pre ++ f :: post)).2.1).map LogEntry.path =
          pre.map LocalFile.path := by
  intro pre
  induction pre with
  | nil =>
    intro st f post msg _ hf
    rw [List.nil_append,
      uploadPhase_cons_error env src dest st f post _ msg (processFile_abort env src dest st f msg hf)]
    exact ⟨rfl, rfl⟩
  | cons g pre ih =>
    intro st f post msg hpre hf
    rcases hp : processFile env src dest st g with ⟨st', r⟩
    cases r with
    | error m =>
      exfalso
      have h2 : (processFile env src dest st g).2 = Except.error m := by rw [hp]
      have h3 := processFile_error_fetch env src dest st g m h2
      rw [hpre g (List.mem_cons_self g pre)] at h3
      exact Option.noConfusion h3
    | ok e =>
      have hpath : e.path = g.path :=
        (processFile_ok_cases env src dest st g e (by rw [hp])).1
      have hih := ih st' f post msg (fun x hx => hpre x (List.mem_cons_of_mem g hx)) hf
      rw [List.cons_append, uploadPhase_cons_ok env src dest st g (pre ++ f :: post) st' e hp]
      constructor
      · exact hih.1
      · show (e :: (uploadPhase env src dest st' (pre ++ f :: post)).2.1).map LogEntry.path =
          (g :: pre).map LocalFile.path
        rw [List.map_cons, List.map_cons, hpath, hih.2]

/-- C5: the destination key of a local file is the DEST prefix with its leading slash
stripped, joined with the file's path relative to SOURCE; concretely, for SOURCE=/a and
DEST=/site the file /a/sub/x.txt maps to the key site/sub/x.txt, and at segment level
the path of a file below the source relative to that source is exactly its remaining
segments, so the relative path is preserved. -/
theorem claim_C5_path_mapping :
    destKey srcA (lstripSlash destSite) fileSub = "site/sub/x.txt" ∧
    (∀ source DEST path : String,
      destKey source (lstripSlash DEST) path =
        pjoin (lstripSlash DEST) (relpath path source)) ∧
    (∀ s r : List String, relpathSegs (s ++ r) s = r) :=
  ⟨by decide, fun _ _ _ => rfl, relpathSegs_append⟩

/-- C5 witness: the segment-level mapping evaluated below the concrete source. -/
theorem claim_C5_path_mapping_witness :
    relpathSegs (pathSegs srcA ++ ["b", "c"]) (pathSegs srcA) = ["b", "c"] :=
  claim_C5_path_mapping.2.2 (pathSegs srcA) ["b", "c"]

/-- C8: content-type resolution sends a .map file and a .ttf file to
application/octet-stream, an .html file to text/html, and any file whose extension
yields no known type to application/octet-stream. -/
theorem claim_C8_content_type :
    resolveContentType fileMapName = octetStream ∧
    resolveContentType fileTtfName = octetStream ∧
    resolveContentType fileHtmlName = "text/html" ∧
    resolveContentType fileXyzName = octetStream ∧
    (∀ p : String, guessType p = none → resolveContentType p = octetStream) := by
  refine ⟨by decide, by decide, by decide, by decide, ?_⟩
  intro p hp
  simp [resolveContentType, hp]

/-- C8 witness: a concrete unknown extension goes through the fallback branch. -/
theorem claim_C8_content_type_witness :
    guessType fileQqqName = none ∧ resolveContentType fileQqqName = octetStream :=
  ⟨by decide, claim_C8_content_type.2.2.2.2 fileQqqName (by decide)⟩

/-- C1: for a traversed file whose metadata fetch succeeds, an upload call is issued
if and only if the local fingerprint differs from the remote fingerprint seen for the
destination key; a missing remote object is seen as the empty fingerprint and is
always uploaded, and equal fingerprints give no upload call and a skipped outcome. -/
theorem claim_C1_upload_iff_mismatch (env : Env) (src dest : String) (st : SyncState)
    (f : LocalFile) (hd : Digest16 env.fp)
    (hfetch : env.fetchErr (destKey src dest f.path) = none) :
    ∃ e, (processFile env src dest st f).2 = Except.ok e ∧
      (e.uploadCalled = true ↔
        fetchedMD5 st.store (destKey src dest f.path) ≠ some (env.fp f.data)) ∧
      (lookupStore st.store (destKey src dest f.path) = none →
        fetchedMD5 st.store (destKey src dest f.path) = some [] ∧ e.uploadCalled = true) ∧
      (fetchedMD5 st.store (destKey src dest f.path) = some (env.fp f.data) →
        e.uploadCalled = false ∧ e.outcome = Outcome.skipped) := by
  by_cases hmd : fetchedMD5 st.store (destKey src dest f.path) = some (env.fp f.data)
  · refine ⟨⟨f.path, destKey src dest f.path, false, Outcome.skipped⟩,
      by rw [processFile_skip env src dest st f hfetch hmd], ?_, ?_, fun _ => ⟨rfl, rfl⟩⟩
    · exact iff_of_false Bool.false_ne_true (not_not_intro hmd)
    · intro hlook
      exfalso
      have h2 : fetchedMD5 st.store (destKey src dest f.path) = some [] := by
        simp [fetchedMD5, hlook]
      rw [h2] at hmd
      have h4 := Option.some.inj hmd
      have h3 := hd f.data
      rw [← h4] at h3
      simp at h3
  · rcases hU : env.uploadErr (destKey src dest f.path) with _ | m
    · refine ⟨⟨f.path, destKey src dest f.path, true, Outcome.done⟩,
        by rw [processFile_upload_done env src dest st f hfetch hmd hU], iff_of_true rfl hmd,
        ?_, fun hc => absurd hc hmd⟩
      intro hlook
      exact ⟨by simp [fetchedMD5, hlook], rfl⟩
    · refine ⟨⟨f.path, destKey src dest f.path, true, Outcome.failed m⟩,
        by rw [processFile_upload_fail env src dest st f m hfetch hmd hU], iff_of_true rfl hmd,
        ?_, fun hc => absurd hc hmd⟩
      intro hlook
      exact ⟨by simp [fetchedMD5, hlook], rfl⟩

/-- C1 witness: over an empty container, the concrete example file gets an upload call. -/
theorem claim_C1_upload_iff_mismatch_witness :
    Digest16 envDemo.fp ∧
      ∃ e, (processFile envDemo srcA (lstripSlash destSite) ⟨[], []⟩ fileA).2 = Except.ok e ∧
        e.uploadCalled = true := by
  refine ⟨digest16_fpDemo, ?_⟩
  obtain ⟨e, hok, hiff, habs, hskip⟩ :=
    claim_C1_upload_iff_mismatch envDemo srcA (lstripSlash destSite) ⟨[], []⟩ fileA
      digest16_fpDemo rfl
  exact ⟨e, hok, (habs rfl).2⟩

/-- C9: a remote object that exists but has no stored content MD5 compares as a
mismatch, so the local file is uploaded again even when its bytes equal the stored
bytes. -/
theorem claim_C9_missing_md5_reuploads (env : Env) (src dest : String) (st : SyncState)
    (f : LocalFile) (p : BlobProps)
    (hfetch : env.fetchErr (destKey src dest f.path) = none)
    (hp : lookupStore st.store (destKey src dest f.path) = some p)
    (hmd5 : p.contentMD5 = none) (hdata : p.data = f.data) :
    ∃ e, (processFile env src dest st f).2 = Except.ok e ∧ e.uploadCalled = true := by
  have hne : fetchedMD5 st.store (destKey src dest f.path) ≠ some (env.fp f.data) := by
    rw [fetchedMD5_of_lookup st.store _ p hp, hmd5]
    exact fun h => Option.noConfusion h
  rcases hU : env.uploadErr (destKey src dest f.path) with _ | m
  · exact ⟨⟨f.path, destKey src dest f.path, true, Outcome.done⟩,
      by rw [processFile_upload_done env src dest st f hfetch hne hU], rfl⟩
  · exact ⟨⟨f.path, destKey src dest f.path, true, Outcome.failed m⟩,
      by rw [processFile_upload_fail env src dest st f m hfetch hne hU], rfl⟩

/-- C9 witness: the concrete object without MD5 holding the same bytes as the local
file is uploaded again. -/
theorem claim_C9_missing_md5_reuploads_witness :
    ∃ e, (processFile envDemo srcA (lstripSlash destSite) ⟨storeNoMD5, []⟩ fileA).2 =
        Except.ok e ∧ e.uploadCalled = true :=
  claim_C9_missing_md5_reuploads envDemo srcA (lstripSlash destSite) ⟨storeNoMD5, []⟩ fileA
    propsNoMD5 rfl (by decide) rfl rfl

/-- C3: every upload call stores on the remote object the resolved content-type and
the recomputed 16-byte content fingerprint as metadata, and a later fingerprint fetch
for the key reads that fingerprint back. -/
theorem claim_C3_upload_stores_metadata (env : Env) (src dest : String) (st : SyncState)
    (f : LocalFile) (hd : Digest16 env.fp)
    (hfetch : env.fetchErr (destKey src dest f.path) = none)
    (hup : env.uploadErr (destKey src dest f.path) = none) :
    ∀ e, (processFile env src dest st f).2 = Except.ok e → e.uploadCalled = true →
      lookupStore ((processFile env src dest st f).1).store (destKey src dest f.path) =
        some ⟨f.data, resolveContentType f.path, some (env.fp f.data)⟩ ∧
      (env.fp f.data).length = 16 ∧
      fetchedMD5 ((processFile env src dest st f).1).store (destKey src dest f.path) =
        some (env.fp f.data) := by
  intro e hok hcall
  by_cases hmd : fetchedMD5 st.store (destKey src dest f.path) = some (env.fp f.data)
  · exfalso
    rw [processFile_skip env src dest st f hfetch hmd] at hok
    simp only [Except.ok.injEq] at hok
    rw [← hok] at hcall
    simp at hcall
  · have hstep := processFile_upload_done env src dest st f hfetch hmd hup
    rw [hstep]
    refine ⟨lookupStore_upsert_self st.store (destKey src dest f.path) _, hd f.data, ?_⟩
    rw [fetchedMD5_of_lookup _ _ _ (lookupStore_upsert_self st.store (destKey src dest f.path) _)]

/-- C3 witness: uploading the concrete file into an empty container stores its
resolved content-type and its fingerprint. -/
theorem claim_C3_upload_stores_metadata_witness :
    lookupStore ((processFile envDemo srcA (lstripSlash destSite) ⟨[], []⟩ fileA).1).store
        (destKey srcA (lstripSlash destSite) fileA.path) =
      some ⟨fileA.data, resolveContentType fileA.path, some (envDemo.fp fileA.data)⟩ := by
  have h := claim_C3_upload_stores_metadata envDemo srcA (lstripSlash destSite) ⟨[], []⟩ fileA
    digest16_fpDemo rfl rfl
  exact (h ⟨fileA.path, destKey srcA (lstripSlash destSite) fileA.path, true, Outcome.done⟩
    (by rfl) rfl).1

/-- C6: every traversed file's destination key enters the keep-set, whatever the
upload outcomes; with pairwise distinct keys the keep-set holds exactly one entry per
file; and the keep-set of the whole run equals the keep-set as it stands after the
upload phase, so reconciliation never mutates it. -/
theorem claim_C6_keep_set (env : Env) (src DEST : String) (sync : Bool)
    (files : List LocalFile) (store0 : Store) (hfe : FetchOk env) :
    (∀ f ∈ files,
      destKey src (lstripSlash DEST) f.path ∈ (runSync env src DEST sync files store0).keep) ∧
    ((files.map (fun f => destKey src (lstripSlash DEST) f.path)).Nodup →
      (runSync env src DEST sync files store0).keep.length = files.length) ∧
    (runSync env src DEST sync files store0).keep =
      ((uploadPhase env src (lstripSlash DEST) ⟨store0, []⟩ files).1).keep := by
  rcases hU0 : uploadPhase env src (lstripSlash DEST) ⟨store0, []⟩ files with ⟨st, ulog, ab⟩
  have habn : ab = none := by
    have h2 := (uploadPhase_log env src (lstripSlash DEST) hfe files ⟨store0, []⟩).2
    rw [hU0] at h2
    exact h2
  subst habn
  have hrun : (runSync env src DEST sync files store0).keep = st.keep := by
    rw [runSync_no_abort env src DEST sync files store0 st ulog hU0]
    cases sync <;> rfl
  have hkeep : st.keep =
      files.foldl (fun K f => insertKey (destKey src (lstripSlash DEST) f.path) K) [] := by
    have h2 := uploadPhase_keep_eq env src (lstripSlash DEST) hfe files ⟨store0, []⟩
    rw [hU0] at h2
    exact h2
  refine ⟨?_, ?_, ?_⟩
  · intro f hf
    rw [hrun, hkeep]
    refine (mem_keepFoldl src (lstripSlash DEST) files []
      (destKey src (lstripSlash DEST) f.path)).2 (Or.inr ?_)
    simp only [List.mem_map]
    exact ⟨f, hf, rfl⟩
  · intro hnod
    rw [hrun, hkeep]
    have h2 := length_keepFoldl src (lstripSlash DEST) files [] hnod
      (fun x _ => List.not_mem_nil _)
    simpa using h2
  · rw [hrun]

/-- C6 witness: over the two concrete files with distinct keys, the key of the first
file is kept and the keep-set has exactly two entries. -/
theorem claim_C6_keep_set_witness :
    destKey srcA (lstripSlash destSite) fileA.path ∈
        (runSync envDemo srcA destSite true filesTwo []).keep ∧
      (runSync envDemo srcA destSite true filesTwo []).keep.length = filesTwo.length := by
  have h := claim_C6_keep_set envDemo srcA destSite true filesTwo [] (fun k => rfl)
  exact ⟨h.1 fileA (by decide), h.2.1 (by decide)⟩

/-- C7: with metadata fetches succeeding, a failing upload is caught at the per-file
boundary: every traversed file still gets a report carrying its own path, the walk
never aborts, a failing upload is reported as failed with its error text, and in
reconciliation every listed non-kept key gets a delete report whether or not its
delete fails. -/
theorem claim_C7_error_isolation (env : Env) (src dest : String) (st : SyncState)
    (files : List LocalFile) (hfe : FetchOk env) :
    ((uploadPhase env src dest st files).2.1).map LogEntry.path = files.map LocalFile.path ∧
    (uploadPhase env src dest st files).2.2 = none ∧
    (∀ e ∈ (uploadPhase env src dest st files).2.1, ∀ msg, e.uploadCalled = true →
      env.uploadErr e.key = some msg → e.outcome = Outcome.failed msg) ∧
    (∀ (keep : List Key) (store2 : Store) (ks : List Key),
      ((reconcileLoop env keep store2 ks).2).map Prod.fst =
        ks.filter (fun k => decide (k ∉ keep))) := by
  refine ⟨(uploadPhase_log env src dest hfe files st).1,
    (uploadPhase_log env src dest hfe files st).2, ?_,
    fun keep store2 ks => reconcileLoop_log env keep ks store2⟩
  intro e he msg hcall hmsg
  obtain ⟨f, st0, hf, hok⟩ := uploadPhase_log_mem env src dest files st e he
  have hcases := processFile_ok_cases env src dest st0 f e hok
  rw [hcases.2.1] at hmsg
  exact hcases.2.2.2.2 msg hcall hmsg

/-- C7 witness: with the upload of the third of five files failing, all five files
are reported in order and the walk does not abort; a delete pass over two listed keys
with one kept reports exactly the other. -/
theorem claim_C7_error_isolation_witness :
    ((uploadPhase envFailC srcA (lstripSlash destSite) ⟨[], []⟩ filesFive).2.1).map
        LogEntry.path = ["/a/a", "/a/b", "/a/c", "/a/d", "/a/e"] ∧
    (uploadPhase envFailC srcA (lstripSlash destSite) ⟨[], []⟩ filesFive).2.2 = none ∧
    ((reconcileLoop envFailC ["site/a"] storeNoMD5 ["site/a", "site/x"]).2).map Prod.fst =
      ["site/x"] := by
  have h := claim_C7_error_isolation envFailC srcA (lstripSlash destSite) ⟨[], []⟩ filesFive
    (fun k => rfl)
  refine ⟨?_, h.2.1, ?_⟩
  · rw [h.1]
    decide
  · rw [h.2.2.2 ["site/a"] storeNoMD5 ["site/a", "site/x"]]
    decide

/-- C10: a metadata-fetch failure other than not-found is not caught at the per-file
boundary: the walk aborts with that error text, only the files before the failing one
are reported, and whenever no such failure occurs — a missing object included, which
is handled as the empty fingerprint — the walk never aborts. -/
theorem claim_C10_fetch_failure_aborts (env : Env) (src dest : String) (st : SyncState)
    (pre : List LocalFile) (f : LocalFile) (post : List LocalFile) (msg : String)
    (hpre : ∀ g ∈ pre, env.fetchErr (destKey src dest g.path) = none)
    (hf : env.fetchErr (destKey src dest f.path) = some msg) :
    (uploadPhase env src dest st (pre ++ f :: post)).2.2 = some msg ∧
    ((uploadPhase env src dest st (pre ++ f :: post)).2.1).map LogEntry.path =
      pre.map LocalFile.path ∧
    (∀ env2 : Env, FetchOk env2 →
      (uploadPhase env2 src dest st (pre ++ f :: post)).2.2 = none) := by
  have h := uploadPhase_abort_at env src dest pre st f post msg hpre hf
  exact ⟨h.1, h.2, fun env2 hfe2 =>
    (uploadPhase_log env2 src dest hfe2 (pre ++ f :: post) st).2⟩

/-- C10 witness: a fetch failure on the second of three files aborts the walk with
its error text, with only the first file reported. -/
theorem claim_C10_fetch_failure_aborts_witness :
    (uploadPhase envFetchFailB srcA (lstripSlash destSite) ⟨[], []⟩
        ([fileA] ++ fileB :: [fileC])).2.2 = some msgBadFetch ∧
    ((uploadPhase envFetchFailB srcA (lstripSlash destSite) ⟨[], []⟩
        ([fileA] ++ fileB :: [fileC])).2.1).map LogEntry.path = [fileA].map LocalFile.path := by
  have h := claim_C10_fetch_failure_aborts envFetchFailB srcA (lstripSlash destSite) ⟨[], []⟩
    [fileA] fileB [fileC] msgBadFetch (by decide) (by decide)
  exact ⟨h.1, h.2.1⟩

/-- C2: with the remote store exactly as the first upload run left it and no local
change, a second run of the upload phase issues no upload call: it leaves the store
untouched and reports every file skipped, with the keep-set rebuilt as before. -/
theorem claim_C2_second_run_skips (env : Env) (src dest : String) (files : List LocalFile)
    (store0 : Store) (hfe : FetchOk env) (hu : UploadOk env) (hd : Digest16 env.fp)
    (hnod : (files.map (fun f => destKey src dest f.path)).Nodup) :
    uploadPhase env src dest
        ⟨((uploadPhase env src dest ⟨store0, []⟩ files).1).store, []⟩ files =
      (⟨((uploadPhase env src dest ⟨store0, []⟩ files).1).store,
          files.foldl (fun K f => insertKey (destKey src dest f.path) K) []⟩,
        files.map (fun f => ⟨f.path, destKey src dest f.path, false, Outcome.skipped⟩),
        none) := by
  apply uploadPhase_all_skip env src dest hfe files
    ⟨((uploadPhase env src dest ⟨store0, []⟩ files).1).store, []⟩
  intro f hf
  exact uploadPhase_md5_synced env src dest hfe hu hd files ⟨store0, []⟩ hnod f hf

/-- C2 witness: the second run over the two example files starting from the store the
first run produced reports both skipped. -/
theorem claim_C2_second_run_skips_witness :
    uploadPhase envDemo srcA (lstripSlash destSite)
        ⟨((uploadPhase envDemo srcA (lstripSlash destSite) ⟨[], []⟩ filesTwo).1).store, []⟩
        filesTwo =
      (⟨((uploadPhase envDemo srcA (lstripSlash destSite) ⟨[], []⟩ filesTwo).1).store,
          filesTwo.foldl (fun K f => insertKey (destKey srcA (lstripSlash destSite) f.path) K)
            []⟩,
        filesTwo.map (fun f =>
          ⟨f.path, destKey srcA (lstripSlash destSite) f.path, false, Outcome.skipped⟩),
        none) :=
  claim_C2_second_run_skips envDemo srcA (lstripSlash destSite) filesTwo []
    (fun k => rfl) (fun k => rfl) digest16_fpDemo (by decide)

theorem mem_listTargets (st : Store) (dest q : Key) :
    q ∈ listTargets st dest ↔ q ∈ st.map Prod.fst ∧ strStartsWith q dest = true := by
  unfold listTargets
  rw [List.mem_filter]

theorem runSync_sync_store (env : Env) (src DEST : String) (files : List LocalFile)
    (store0 : Store) (st : SyncState) (ulog : List LogEntry)
    (hU : uploadPhase env src (lstripSlash DEST) ⟨store0, []⟩ files = (st, ulog, none)) :
    (runSync env src DEST true files store0).store =
      (reconcileLoop env st.keep st.store (listTargets st.store (lstripSlash DEST))).1 := by
  rcases h2 : reconcileLoop env st.keep st.store (listTargets st.store (lstripSlash DEST))
    with ⟨s2, dl⟩
  simp [runSync, hU, h2]

/-- C4: with sync mode on and fault-free deletes, after the upload phase the
reconciliation deletes exactly the remote objects whose key starts with the stripped
destination and is absent from the keep-set: such keys afterwards look up to nothing,
and every other key still looks up to what the upload phase left for it. -/
theorem claim_C4_reconciliation (env : Env) (src DEST : String) (files : List LocalFile)
    (store0 : Store) (st : SyncState) (ulog : List LogEntry) (q : Key)
    (hdel : DeleteOk env)
    (hU : uploadPhase env src (lstripSlash DEST) ⟨store0, []⟩ files = (st, ulog, none)) :
    lookupStore (runSync env src DEST true files store0).store q =
      if strStartsWith q (lstripSlash DEST) = true ∧ q ∉ st.keep then none
      else lookupStore st.store q := by
  rw [runSync_sync_store env src DEST files store0 st ulog hU,
    reconcileLoop_lookup env st.keep hdel (listTargets st.store (lstripSlash DEST)) st.store q]
  by_cases hkeep : q ∉ st.keep
  · by_cases hpre2 : strStartsWith q (lstripSlash DEST) = true
    · by_cases hmem : q ∈ st.store.map Prod.fst
      · have hT : q ∈ listTargets st.store (lstripSlash DEST) :=
          (mem_listTargets st.store (lstripSlash DEST) q).2 ⟨hmem, hpre2⟩
        rw [if_pos ⟨hT, hkeep⟩, if_pos ⟨hpre2, hkeep⟩]
      · have hT : q ∉ listTargets st.store (lstripSlash DEST) := fun hc =>
          hmem ((mem_listTargets st.store (lstripSlash DEST) q).1 hc).1
        rw [if_neg (fun hc => hT hc.1), if_pos ⟨hpre2, hkeep⟩,
          lookupStore_eq_none_of_not_mem st.store q hmem]
    · have hT : q ∉ listTargets st.store (lstripSlash DEST) := fun hc =>
        hpre2 ((mem_listTargets st.store (lstripSlash DEST) q).1 hc).2
      rw [if_neg (fun hc => hT hc.1), if_neg (fun hc => hpre2 hc.1)]
  · rw [if_neg (fun hc => hkeep hc.2), if_neg (fun hc => hkeep hc.2)]

/-- C4 witness: with the container holding site/a, site/b, site/stale and the upload
phase keeping site/a and site/b, exactly site/stale is deleted and site/a remains as
it was. -/
theorem claim_C4_reconciliation_witness :
    lookupStore (runSync envDemo srcA destSite true filesTwo storeSite).store keyStale =
        none ∧
      lookupStore (runSync envDemo srcA destSite true filesTwo storeSite).store keySiteA =
        lookupStore storeSite keySiteA := by
  have hU : uploadPhase envDemo srcA (lstripSlash destSite) ⟨storeSite, []⟩ filesTwo =
      (⟨storeSite, keepTwoKeys⟩, skipLogTwo, none) := by decide
  have h1 := claim_C4_reconciliation envDemo srcA destSite filesTwo storeSite
    ⟨storeSite, keepTwoKeys⟩ skipLogTwo keyStale (fun k => rfl) hU
  have h2 := claim_C4_reconciliation envDemo srcA destSite filesTwo storeSite
    ⟨storeSite, keepTwoKeys⟩ skipLogTwo keySiteA (fun k => rfl) hU
  rw [h1, h2]
  constructor
  · decide
  · decide

end CopyToBlob
